import Mathlib

/-!
Verification of the hedge-engine decision core against its specification.

The Python sources under `src/` are shallowly embedded here:

* `src/ev_calc.py`      → `HedgeEngine.compute_ev`
* `src/decay_sim.py`    → `HedgeEngine.simulate_lef_decay`
* `src/execution_stub.py` → `HedgeEngine.execute_order` and helpers
* `src/audit.py`        → `HedgeEngine.compute_audit_hash`, `make_decision_record`,
  `verify_audit_hash`, `sign_decision`

Python floats are modelled as exact rationals (`ℚ`); Python ints as `ℤ`/`ℕ`;
fallible code returns `Except`; the seeded pseudo-random generators
(`numpy.random.default_rng`, `random.Random`) are modelled by concrete
deterministic functions of the seed/state, which is the property of them the
code relies on. SHA-256 is modelled as an explicit function parameter
(cryptographic hashes are abstracted; collision-freedom enters theorems as an
explicit hypothesis at the record pair in question).
-/

namespace HedgeEngine

/-! ## Data model -/

/-- Decay statistics dict produced by `simulate_lef_decay` (src/decay_sim.py,
lines 86-98): summary statistics of the simulated T-day leveraged returns plus
the echoed `trials`, `window` and `leverage` arguments. -/
structure DecayStats where
  mean : ℚ
  median : ℚ
  p10 : ℚ
  p25 : ℚ
  p75 : ℚ
  p90 : ℚ
  worst : ℚ
  best : ℚ
  trials : ℕ
  window : ℕ
  leverage : ℚ
deriving DecidableEq, Repr

/-- Signal dict as read by `compute_ev` (src/ev_calc.py, lines 49-53):
`p_success` and the three scenario deltas default to `0.0` when missing, which
the embedding bakes in; `p_confidence` defaults to `1.0` when missing
(line 75), so it is kept as an `Option`. -/
structure Signal where
  p_success : ℚ
  p_confidence : Option ℚ
  fav : ℚ
  neutral : ℚ
  unfav : ℚ
deriving DecidableEq, Repr

/-- Result dict of `compute_ev` (src/ev_calc.py, lines 86-94). -/
structure EVResult where
  ev_gross : ℚ
  letf_decay : ℚ
  ev_net : ℚ
  viability_pass : Bool
  p_confidence : ℚ
  safety_margin : ℚ
  notes : String
deriving DecidableEq, Repr

/-! ## ViabilityGate: src/ev_calc.py -/

/-- `compute_ev` (src/ev_calc.py, lines 18-94).
`ev_gross = p*fav + (1-p)*unfav` (the `neutral` delta is read but unused,
exactly as in the source); `letf_decay = max(0, -mean)` when decay stats are
given; `ev_net = ev_gross - letf_decay - trading_costs - slippage`;
`viability_pass = (ev_net > safety_margin) and (p_conf >= 0.7)`; the notes
string reports low confidence first, then EV below margin. -/
def compute_ev (signal : Signal) (decay_stats : Option DecayStats)
    (trading_costs : ℚ) (slippage : ℚ) (safety_margin : ℚ) : EVResult :=
  let p := signal.p_success
  let fav := signal.fav
  let unfav := signal.unfav
  let ev_gross := p * fav + (1 - p) * unfav
  let letf_decay : ℚ :=
    match decay_stats with
    | some ds => max 0 (-ds.mean)
    | none => 0
  let ev_net := ev_gross - letf_decay - trading_costs - slippage
  let p_conf := signal.p_confidence.getD 1
  let confidence_gate : Bool := decide (7/10 ≤ p_conf)
  let viability_pass : Bool := decide (safety_margin < ev_net) && confidence_gate
  let notes : String :=
    if confidence_gate = false then "Low model confidence; human review recommended."
    else if ev_net ≤ safety_margin then "Net EV below safety margin."
    else ""
  { ev_gross := ev_gross
    letf_decay := letf_decay
    ev_net := ev_net
    viability_pass := viability_pass
    p_confidence := p_conf
    safety_margin := safety_margin
    notes := notes }

/-- The signal of the spec's worked EV-gate example: `p_success=0.8`,
`fav=0.10`, `unfav=-0.05` (no `p_confidence` supplied, so it defaults to 1.0). -/
def exampleSignal : Signal :=
  { p_success := 4/5, p_confidence := none, fav := 1/10, neutral := 0, unfav := -(1/20) }

/-- Decay stats with `mean = -0.01` as in the spec's worked EV-gate example
(the other fields are irrelevant to `compute_ev`, which reads only `mean`). -/
def exampleDecay : DecayStats :=
  { mean := -(1/100), median := 0, p10 := 0, p25 := 0, p75 := 0, p90 := 0,
    worst := 0, best := 0, trials := 0, window := 0, leverage := 0 }

/-- The spec's worked EV-gate example evaluated: costs 0.0005, slippage 0.0005,
safety margin 0.01. -/
def exampleEV : EVResult :=
  compute_ev exampleSignal (some exampleDecay) (1/2000) (1/2000) (1/100)

/-! ## DecaySimulator: src/decay_sim.py -/

/-- Error cases of `simulate_lef_decay` (src/decay_sim.py, lines 64-68): the
two `ValueError` raises — window below 1, and a returns series shorter than
the window. -/
inductive DecayError where
  | invalidWindow
  | insufficientHistory
deriving DecidableEq, Repr

/-- Deterministic model of
`np.random.default_rng(seed).integers(0, bound, size)` used at
src/decay_sim.py, lines 70-72: a linear-congruential stream keyed by the seed,
producing `size` values in `[0, bound)`. The exact PCG64 stream is not
reproduced bit-for-bit; what the code relies on — and what the model provides
— is that the draw is a pure in-range function of the seed alone. -/
def npStarts (seed : ℕ) (bound : ℕ) : ℕ → List ℕ
  | 0 => []
  | k + 1 =>
      let s := (seed * 1103515245 + 12345) % 2147483648
      s % bound :: npStarts s bound k

/-- One bootstrap trial (src/decay_sim.py, lines 75-84): take the
`window`-length slice of returns starting at `s`, form the per-day leveraged
factors `1 + leverage * r`, clip each to the floor `-0.999`, multiply across
the window (`np.prod` of an empty slice is 1) and subtract 1. -/
def trialReturn (underlying : List ℚ) (leverage : ℚ) (window : ℕ) (s : ℕ) : ℚ :=
  let slice := (underlying.drop s).take window
  let factors := slice.map (fun r => max (1 + leverage * r) (-(999/1000)))
  factors.foldl (· * ·) 1 - 1

/-- `np.percentile(results, q)` with numpy's default linear-interpolation
method, expressed over an ascending-sorted copy of the data
(src/decay_sim.py, lines 89-92): the value at fractional position
`q/100 * (n-1)`, linearly interpolated between the two neighbouring order
statistics. `np.median` is the `q = 50` case. `pIdx` is the integer part of
the fractional position. -/
def pIdx (sorted : List ℚ) (q : ℚ) : ℕ :=
  (⌊q * ((sorted.length : ℚ) - 1) / 100⌋).toNat

/-- Linear interpolation between the order statistics at `pIdx` and
`pIdx + 1` — the body of `np.percentile(results, q)` for a sorted list. -/
def npPercentile (sorted : List ℚ) (q : ℚ) : ℚ :=
  let pos := q * ((sorted.length : ℚ) - 1) / 100
  let i := pIdx sorted q
  let g := pos - i
  let lo := sorted.getD i 0
  let hi := sorted.getD (i + 1) lo
  lo + g * (hi - lo)

/-- `np.min` over the trial results (0 for an empty list, which the guarded
code never produces). -/
def listMin : List ℚ → ℚ
  | [] => 0
  | x :: xs => xs.foldl min x

/-- `np.max` over the trial results (0 for an empty list). -/
def listMax : List ℚ → ℚ
  | [] => 0
  | x :: xs => xs.foldl max x

/-- `np.mean`. -/
def listMean (l : List ℚ) : ℚ := l.sum / l.length

/-- `simulate_lef_decay` (src/decay_sim.py, lines 37-101): after the two
guards, draw `trials` bootstrap start indices from `[0, n - window]`, compute
each trial's T-day leveraged return, and aggregate
mean/median/p10/p25/p75/p90/min/max. -/
def simulate_lef_decay (underlying_returns : List ℚ) (leverage : ℚ)
    (window : ℤ) (trials : ℕ) (seed : ℕ) : Except DecayError DecayStats :=
  if window < 1 then .error .invalidWindow
  else if (underlying_returns.length : ℤ) < window then .error .insufficientHistory
  else
    let w := window.toNat
    let n := underlying_returns.length
    let starts := npStarts seed (n - w + 1) trials
    let results := starts.map (trialReturn underlying_returns leverage w)
    let sorted := results.insertionSort (· ≤ ·)
    .ok
      { mean := listMean results
        median := npPercentile sorted 50
        p10 := npPercentile sorted 10
        p25 := npPercentile sorted 25
        p75 := npPercentile sorted 75
        p90 := npPercentile sorted 90
        worst := listMin results
        best := listMax results
        trials := trials
        window := w
        leverage := leverage }

/-- Stats of the concrete run `simulate_lef_decay [0, 0] 2 1 1 0`: every
trial's leveraged return is 0 (zero underlying moves), so all statistics are
zero. -/
def zeroStats : DecayStats :=
  { mean := 0, median := 0, p10 := 0, p25 := 0, p75 := 0, p90 := 0,
    worst := 0, best := 0, trials := 1, window := 1, leverage := 2 }

/-! ## ExecutionSimulator: src/execution_stub.py -/

/-- State update of the `random.Random` instance threaded through the
execution simulator. The Mersenne Twister is modelled by a
linear-congruential update — again, a pure function of the previous state,
which is the property the simulator's determinism rests on. -/
def rngNext (s : ℕ) : ℕ := (s * 1103515245 + 12345) % 2147483648

/-- `rng.uniform(-0.25, 0.25)` (src/execution_stub.py, line 39): advance the
state and derive a jitter in `[-1/4, 1/4]`. -/
def rngUniform (s : ℕ) : ℚ × ℕ :=
  let s' := rngNext s
  (((s' % 1001 : ℕ) : ℚ) / 1000 * (1/2) - 1/4, s')

/-- Python `str.upper()` for the ASCII strings used here, defined by
structural recursion over the character list so that concrete instances
evaluate (`String.toUpper` recurses on byte positions, which kernel reduction
cannot unfold). -/
def strUpper (s : String) : String := ⟨s.data.map Char.toUpper⟩

/-- `_mock_fill_price` (src/execution_stub.py, lines 22-41): slipped fill
price around `market_price`, sign `+` for BUY and `-` otherwise, with the
slippage scaled by `1 + jitter`. Returns the price and the advanced RNG
state. -/
def _mock_fill_price (market_price : ℚ) (side : String) (slippage_bps : ℚ)
    (rng : ℕ) : ℚ × ℕ :=
  let sign : ℚ := if strUpper side = "BUY" then 1 else -1
  let ju := rngUniform rng
  let slippage := slippage_bps * (1 + ju.1) / 10000
  (market_price * (1 + sign * slippage), ju.2)

/-- `_slice_capacity_from_adv` (src/execution_stub.py, lines 44-65): maximum
shares for a slice from ADV and participation rate; 0 when ADV or price is
non-positive, else `max(0, floor(adv_usd / minutes_per_day * slice_minutes *
percent_of_adv / price))`. -/
def _slice_capacity_from_adv (adv_usd percent_of_adv slice_minutes : ℚ)
    (minutes_per_day : ℚ) (price : ℚ) : ℤ :=
  if adv_usd ≤ 0 ∨ price ≤ 0 then 0
  else max 0 ⌊adv_usd / minutes_per_day * slice_minutes * percent_of_adv / price⌋

/-- One slice record of a TWAP simulation (src/execution_stub.py,
lines 102-118). -/
structure SliceFill where
  slice : ℕ
  requested : ℤ
  filled : ℤ
  price : Option ℚ
  status : String
deriving DecidableEq, Repr

/-- An order dict as read by the execution stub. Optional dict keys are
`Option` fields; `qty` is `int(order.get("qty", 0))` (missing = 0), `side`
defaults to `"BUY"` and `type` to `"MARKET"` at the read sites, which the
callers below replicate. -/
structure Order where
  ticker : String
  side : String
  qty : ℤ
  type : String
  limit : Option ℚ
  algo : Option String
  duration_minutes : Option ℤ
  slices : Option ℤ
  percent_of_adv : Option ℚ
deriving DecidableEq, Repr

/-- The slice loop of `_simulate_twap_fill` (src/execution_stub.py,
lines 87-123), one recursive step per remaining slice (`fuel` counts the
slices still to run, `i` the 0-based index of the current one). Returns the
slice records, the final `remaining` and the final RNG state. -/
def twapLoop (side : String) (qty slices : ℤ)
    (market_price adv_usd percent_of_adv slice_minutes slippage_bps : ℚ) :
    ℕ → ℕ → ℤ → ℕ → List SliceFill × ℤ × ℕ
  | _, 0, remaining, rng => ([], remaining, rng)
  | i, fuel + 1, remaining, rng =>
    let slice_capacity :=
      _slice_capacity_from_adv adv_usd percent_of_adv slice_minutes 390 market_price
    let intended := ⌈(qty : ℚ) / (slices : ℚ)⌉
    let allowed₀ := if slice_capacity > 0 then min intended slice_capacity else intended
    let allowed := if allowed₀ ≤ 0 ∧ remaining > 0 then min remaining 1 else allowed₀
    let fill_qty := min allowed remaining
    if fill_qty ≤ 0 then
      let rest := twapLoop side qty slices market_price adv_usd percent_of_adv
        slice_minutes slippage_bps (i + 1) fuel remaining rng
      (⟨i + 1, intended, 0, none, "not_filled"⟩ :: rest.1, rest.2.1, rest.2.2)
    else
      let pr := _mock_fill_price market_price side slippage_bps rng
      let remaining' := remaining - fill_qty
      if remaining' ≤ 0 then
        ([⟨i + 1, intended, fill_qty, some pr.1, "filled"⟩], remaining', pr.2)
      else
        let rest := twapLoop side qty slices market_price adv_usd percent_of_adv
          slice_minutes slippage_bps (i + 1) fuel remaining' pr.2
        (⟨i + 1, intended, fill_qty, some pr.1, "filled"⟩ :: rest.1, rest.2.1, rest.2.2)

/-- `_simulate_twap_fill` (src/execution_stub.py, lines 68-126): split the
order into `slices` child orders; empty result when `qty ≤ 0` or
`slices ≤ 0`. Returns (slice records, total filled = qty - remaining, RNG
state); the Python version mutates the shared `random.Random` in place, which
the explicit state models. -/
def _simulate_twap_fill (order : Order) (market_price adv_usd percent_of_adv : ℚ)
    (duration_minutes slices : ℤ) (slippage_bps : ℚ) (rng : ℕ) :
    List SliceFill × ℤ × ℕ :=
  let qty := order.qty
  if qty ≤ 0 ∨ slices ≤ 0 then ([], 0, rng)
  else
    let slice_minutes := (duration_minutes : ℚ) / (slices : ℚ)
    let r := twapLoop order.side qty slices market_price adv_usd percent_of_adv
      slice_minutes slippage_bps 0 slices.toNat qty rng
    (r.1, qty - r.2.1, r.2.2)

/-- One fill record of a MARKET/LIMIT execution (src/execution_stub.py,
lines 167, 185). -/
structure FillRec where
  qty : ℤ
  price : ℚ
  status : String
deriving DecidableEq, Repr

/-- Result dict of `_execute_order_limit` / `_execute_order_market`
(src/execution_stub.py, line 144). -/
structure ExecResult where
  requested : ℤ
  filled : ℤ
  avg_fill_price : Option ℚ
  fills : List FillRec
  status : String
deriving DecidableEq, Repr

/-- `_execute_order_limit` (src/execution_stub.py, lines 129-169): invalid
when the limit is missing or `qty ≤ 0`; otherwise a marketable test — BUY
fills iff `limit ≥ market_price`, anything else (SELL) iff
`limit ≤ market_price`; a marketable order fills fully at a slipped price
anchored to the limit, a non-marketable one is `no_fill`. -/
def _execute_order_limit (order : Order) (market_price : ℚ)
    (max_slippage_bps : ℚ) (rng : ℕ) : ExecResult × ℕ :=
  let side := strUpper order.side
  let qty := order.qty
  match order.limit with
  | none =>
      ({ requested := qty, filled := 0, avg_fill_price := none, fills := [],
         status := "invalid_order" }, rng)
  | some limit =>
      if qty ≤ 0 then
        ({ requested := qty, filled := 0, avg_fill_price := none, fills := [],
           status := "invalid_order" }, rng)
      else
        let is_marketable : Bool :=
          if side = "BUY" then decide (market_price ≤ limit)
          else decide (limit ≤ market_price)
        if is_marketable then
          let pr := _mock_fill_price limit side max_slippage_bps rng
          ({ requested := qty, filled := qty, avg_fill_price := some pr.1,
             fills := [⟨qty, pr.1, "filled"⟩], status := "filled" }, pr.2)
        else
          ({ requested := qty, filled := 0, avg_fill_price := none, fills := [],
             status := "no_fill" }, rng)

/-- `_execute_order_market` (src/execution_stub.py, lines 172-185): immediate
full fill at the slipped market price, `invalid_order` (with `requested = 0`,
as in the source) when `qty ≤ 0`. -/
def _execute_order_market (order : Order) (market_price : ℚ)
    (max_slippage_bps : ℚ) (rng : ℕ) : ExecResult × ℕ :=
  let qty := order.qty
  if qty ≤ 0 then
    ({ requested := 0, filled := 0, avg_fill_price := none, fills := [],
       status := "invalid_order" }, rng)
  else
    let pr := _mock_fill_price market_price order.side max_slippage_bps rng
    ({ requested := qty, filled := qty, avg_fill_price := some pr.1,
       fills := [⟨qty, pr.1, "filled"⟩], status := "filled" }, pr.2)

/-- Input forms of `sor_policy` modelled for `_parse_sor_policy`
(src/execution_stub.py, lines 188-211): absent/None, or the structured
`{mode, percent}` dict. The string-encoded `"percent_of_adv=<float>"` form
needs Python float parsing and is exercised by no claim, so it is left out of
the embedding. -/
inductive SorPolicy where
  | nullP
  | dictP (mode : Option String) (percent : Option ℚ)
deriving DecidableEq, Repr

/-- `_parse_sor_policy` for the modelled input forms: `(mode, percent)`, with
the default 5% participation rate when absent. -/
def _parse_sor_policy : SorPolicy → String × ℚ
  | .nullP => ("percent_of_adv", 5/100)
  | .dictP mode percent => (mode.getD "percent_of_adv", percent.getD (5/100))

/-- One ticker's entry of the market snapshot: `{'price': float, 'adv': float}`,
either key possibly missing. -/
structure MarketInfo where
  price : Option ℚ
  adv : Option ℚ
deriving DecidableEq, Repr

/-- Per-order entry of the fills list built by `execute_order`
(src/execution_stub.py, lines 259-266): the TWAP branch stores slice records,
the MARKET/LIMIT branch stores plain fill records. -/
inductive FillEntry where
  | slice (s : SliceFill)
  | simple (f : FillRec)
deriving DecidableEq, Repr

structure OrderResult where
  ticker : String
  requested_qty : ℤ
  filled_qty : ℤ
  avg_fill_price : Option ℚ
  status : String
  fills : List FillEntry
deriving DecidableEq, Repr

/-- Plan-level metrics (src/execution_stub.py, line 247). -/
structure Metrics where
  total_requested : ℤ
  total_filled : ℤ
  notional_filled_usd : ℚ
deriving DecidableEq, Repr

structure FillReport where
  status : String
  fills : List OrderResult
  metrics : Metrics
deriving DecidableEq, Repr

structure ExecutionPlan where
  orders : List Order
  sor_policy : SorPolicy
  max_slippage_bps : ℚ
deriving DecidableEq, Repr

/-- `sum(f["filled"] * f.get("price", market_price) for f in slice_fills if
f["filled"] > 0)` (src/execution_stub.py, line 293). -/
def twapTotalVal (market_price : ℚ) (slice_fills : List SliceFill) : ℚ :=
  ((slice_fills.filter (fun f => 0 < f.filled)).map
    (fun f => (f.filled : ℚ) * f.price.getD market_price)).sum

/-- The per-order body of `execute_order`'s loop (src/execution_stub.py,
lines 250-314): resolve market data for the ticker (price falls back to the
order's limit, then 100.0; ADV falls back to 0), dispatch on order type —
TWAP when `type == "ALG"` or `algo == "TWAP"`, else MARKET/LIMIT with unknown
types treated as MARKET — and build the per-order result. -/
def processOrder (market_snapshot : List (String × MarketInfo))
    (sor_percent : ℚ) (max_slippage_bps : ℚ) (order : Order) (rng : ℕ) :
    OrderResult × ℕ :=
  let ord_type := strUpper order.type
  let qty := order.qty
  let market_info := market_snapshot.lookup order.ticker
  let market_price := match market_info with
    | some mi => mi.price.getD (order.limit.getD 100)
    | none => order.limit.getD 100
  let adv_usd := match market_info with
    | some mi => mi.adv.getD 0
    | none => 0
  if ord_type = "ALG" ∨ strUpper (order.algo.getD "") = "TWAP" then
    let duration := order.duration_minutes.getD 30
    let slices := order.slices.getD 6
    let percent := order.percent_of_adv.getD sor_percent
    let r := _simulate_twap_fill order market_price adv_usd percent duration
      slices max_slippage_bps rng
    let total_filled := r.2.1
    let status := if total_filled ≥ qty then "filled"
      else if total_filled > 0 then "partial" else "no_fill"
    let avg := if 0 < total_filled
      then some (twapTotalVal market_price r.1 / (total_filled : ℚ)) else none
    ({ ticker := order.ticker, requested_qty := qty, filled_qty := total_filled,
       avg_fill_price := avg, status := status,
       fills := r.1.map FillEntry.slice }, r.2.2)
  else
    let res := if ord_type = "MARKET" then
        _execute_order_market order market_price max_slippage_bps rng
      else if ord_type = "LIMIT" then
        _execute_order_limit order market_price max_slippage_bps rng
      else
        _execute_order_market order market_price max_slippage_bps rng
    ({ ticker := order.ticker, requested_qty := qty, filled_qty := res.1.filled,
       avg_fill_price := res.1.avg_fill_price, status := res.1.status,
       fills := res.1.fills.map FillEntry.simple }, res.2)

/-- One iteration of the plan loop (src/execution_stub.py, lines 250-314):
run the order, append its result, and accumulate
`total_requested += qty`, `total_filled += filled_qty` and — when an average
fill price exists — `notional_filled_usd += filled_qty * avg_fill_price`. -/
def execStep (market_snapshot : List (String × MarketInfo))
    (sor_percent : ℚ) (max_slippage_bps : ℚ)
    (acc : List OrderResult × Metrics × ℕ) (order : Order) :
    List OrderResult × Metrics × ℕ :=
  let r := processOrder market_snapshot sor_percent max_slippage_bps order acc.2.2
  let m := acc.2.1
  let m' : Metrics :=
    { total_requested := m.total_requested + order.qty
      total_filled := m.total_filled + r.1.filled_qty
      notional_filled_usd := m.notional_filled_usd +
        (match r.1.avg_fill_price with
         | some p => (r.1.filled_qty : ℚ) * p
         | none => 0) }
  (acc.1 ++ [r.1], m', r.2)

/-- `execute_order` (src/execution_stub.py, lines 214-316): hard failure for
any mode but `"sandbox"` (`NotImplementedError`), else run every order of the
plan through `processOrder`, threading the seeded RNG state, and report the
per-order fills plus plan-level metrics. -/
def execute_order (execution_plan : ExecutionPlan) (mode : String)
    (market_snapshot : List (String × MarketInfo)) (seed : ℕ) :
    Except String FillReport :=
  if mode ≠ "sandbox" then
    .error "Live broker integration is not implemented in execution_stub."
  else
    let sor := _parse_sor_policy execution_plan.sor_policy
    let out := execution_plan.orders.foldl
      (execStep market_snapshot sor.2 execution_plan.max_slippage_bps)
      ([], ⟨0, 0, 0⟩, seed)
    .ok { status := "ok", fills := out.1, metrics := out.2.1 }

/-! ## AuditLedger: src/audit.py -/

/-- JSON-like values making up a decision record (the dicts `src/audit.py`
hashes, signs and verifies). -/
inductive JVal where
  | null
  | bool (b : Bool)
  | num (q : ℚ)
  | str (s : String)
  | arr (items : List JVal)
  | obj (fields : List (String × JVal))

/-- `d.get(k)`: the value at the first matching key (keys of a Python dict
are unique; records built by the audit helpers keep that invariant). -/
def getJ (r : List (String × JVal)) (k : String) : Option JVal :=
  (r.find? (fun p => p.1 == k)).map (fun p => p.2)

/-- `d.pop(k, None)`: drop the key. -/
def popJ (r : List (String × JVal)) (k : String) : List (String × JVal) :=
  r.filter (fun p => !(p.1 == k))

/-- `d[k] = v`: replace the value in place when the key exists, else append
the new key (Python dicts preserve insertion order). -/
def setJ (r : List (String × JVal)) (k : String) (v : JVal) :
    List (String × JVal) :=
  if r.any (fun p => p.1 == k) then
    r.map (fun p => if p.1 == k then (k, v) else p)
  else r ++ [(k, v)]

/-- `k in d`. -/
def hasJ (r : List (String × JVal)) (k : String) : Bool :=
  r.any (fun p => p.1 == k)

/-- Python truthiness of a JSON value (`not rec.get(...)` checks in
`make_decision_record`, line 84-86, and `verify_audit_hash`, line 154). -/
def jTruthy : JVal → Bool
  | .null => false
  | .bool b => b
  | .num q => !(decide (q = 0))
  | .str s => !(s == "")
  | .arr items => !items.isEmpty
  | .obj fields => !fields.isEmpty

/-- `compute_audit_hash` (src/audit.py, lines 45-63): drop any existing
`audit_hash` and `signature` fields and hash the canonical serialization of
the rest. `hashFn` stands for `sha256 ∘ _canonical_json_bytes` (lines 37-42,
61-62): serialization composed with SHA-256 is modelled as an opaque function
of the stripped record; where a theorem needs that two distinct stripped
records hash differently (SHA-256 collision-freedom), it takes that instance
as an explicit hypothesis. -/
def compute_audit_hash (hashFn : List (String × JVal) → String)
    (decision : List (String × JVal)) : String :=
  hashFn (popJ (popJ decision "audit_hash") "signature")

/-- `make_decision_record` (src/audit.py, lines 66-92): generate
`decision_id`/`timestamp_utc` when `ensure_ids` and the field is missing or
falsy (`gen_id`/`gen_ts` stand for the fresh `uuid4().hex` and UTC timestamp),
then compute and attach `audit_hash`. -/
def make_decision_record (hashFn : List (String × JVal) → String)
    (gen_id gen_ts : String) (ensure_ids : Bool)
    (decision : List (String × JVal)) : List (String × JVal) :=
  let rec1 := if ensure_ids &&
      (!(hasJ decision "decision_id") ||
        !(jTruthy ((getJ decision "decision_id").getD .null)))
    then setJ decision "decision_id" (.str gen_id) else decision
  let rec2 := if ensure_ids &&
      (!(hasJ rec1 "timestamp_utc") ||
        !(jTruthy ((getJ rec1 "timestamp_utc").getD .null)))
    then setJ rec1 "timestamp_utc" (.str gen_ts) else rec1
  setJ rec2 "audit_hash" (.str (compute_audit_hash hashFn rec2))

/-- `verify_audit_hash` (src/audit.py, lines 147-157): false when the stored
`audit_hash` is missing or falsy, else compare it to a recomputation over the
same excluded-field policy (a non-string truthy stored value never equals the
recomputed hex string). -/
def verify_audit_hash (hashFn : List (String × JVal) → String)
    (decision : List (String × JVal)) : Bool :=
  match getJ decision "audit_hash" with
  | some (JVal.str s) =>
      if s = "" then false
      else decide (s = compute_audit_hash hashFn decision)
  | some v => if jTruthy v then false else false
  | none => false

/-- Failure cases of `sign_decision` (src/audit.py, lines 113-115): the
`ValueError` for a record lacking `audit_hash`; `typeError` models the
`TypeError` Python would raise concatenating a non-string `audit_hash`. -/
inductive AuditError where
  | missingAuditHash
  | typeError
deriving DecidableEq, Repr

/-- The `{signed_by, signature_hash, signed_at}` block `sign_decision`
builds (src/audit.py, line 117). -/
def signatureBlock (signer sig now : String) : JVal :=
  .obj [("signed_by", .str signer), ("signature_hash", .str sig),
    ("signed_at", .str now)]

/-- `sign_decision` (src/audit.py, lines 95-122): requires a sealed record;
attaches `{signed_by, signature_hash, signed_at}` with
`signature_hash = sha256(audit_hash + "|" + signer)` (`sigHash` models the
string SHA-256, `now` the `signed_at` timestamp) and deliberately does not
recompute `audit_hash`. -/
def sign_decision (sigHash : String → String) (now : String)
    (decision : List (String × JVal)) (signer : String) :
    Except AuditError (List (String × JVal)) :=
  match getJ decision "audit_hash" with
  | none => .error .missingAuditHash
  | some (JVal.str h) =>
      let sig := sigHash (h ++ "|" ++ signer)
      .ok (setJ decision "signature" (signatureBlock signer sig now))
  | some _ => .error .typeError

/-- Hash stand-in for the C5 witness: a function of the stripped record that
never returns the empty string and separates the two concrete records of the
witness. -/
def c5Hash : List (String × JVal) → String :=
  fun r => if r.length ≤ 2 then "A" else "B"

/-- TWAP order of the C1 scenario: quantity 100 in a single slice against a
tiny ADV. -/
def c1Order : Order :=
  { ticker := "SSO", side := "BUY", qty := 100, type := "ALG",
    limit := none, algo := some "TWAP", duration_minutes := some 30,
    slices := some 1, percent_of_adv := none }

end HedgeEngine

/-! ## Theorems -/

open HedgeEngine

/-- C2 counterexample: on the spec's worked example (`p_success=0.8`,
`fav=0.10`, `unfav=-0.05`, `decay.mean=-0.01`, costs `0.0005`, slippage
`0.0005`, margin `0.01`) the code's `ev_gross = 0.8*0.10 + 0.2*(-0.05)` equals
`0.07`, not the claimed `0.05`. -/
theorem compute_ev_example_ev_gross_ne_claimed :
    ¬ (exampleEV.ev_gross = 5/100) := by
  simp only [exampleEV, compute_ev, exampleSignal, exampleDecay]
  norm_num

/-- C2 (amended): on the spec's worked example the code returns
`ev_gross = 0.07`, `letf_decay = 0.01`, `ev_net = 0.059` and
`viability_pass = true`. -/
theorem compute_ev_example_values :
    exampleEV.ev_gross = 7/100 ∧ exampleEV.letf_decay = 1/100 ∧
      exampleEV.ev_net = 59/1000 ∧ exampleEV.viability_pass = true := by
  refine ⟨?_, ?_, ?_, ?_⟩ <;>
    simp only [exampleEV, compute_ev, exampleSignal, exampleDecay,
      Bool.and_eq_true, decide_eq_true_eq] <;>
    norm_num

/-- C3: the viability gate passes iff `ev_net > safety_margin` and
`p_confidence ≥ 0.70`; with `p_confidence = 0.6` it always fails; and whenever
the confidence gate fails (in particular when both conditions fail) the notes
field reports low confidence, not EV-below-margin. -/
theorem compute_ev_viability_gate (signal : Signal) (ds : Option DecayStats)
    (tc sl sm : ℚ) :
    ((compute_ev signal ds tc sl sm).viability_pass = true ↔
      (sm < (compute_ev signal ds tc sl sm).ev_net ∧
        7/10 ≤ (compute_ev signal ds tc sl sm).p_confidence)) ∧
    (signal.p_confidence = some (3/5) →
      (compute_ev signal ds tc sl sm).viability_pass = false) ∧
    ((compute_ev signal ds tc sl sm).p_confidence < 7/10 →
      (compute_ev signal ds tc sl sm).notes =
        "Low model confidence; human review recommended.") := by
  refine ⟨?_, ?_, ?_⟩
  · simp [compute_ev]
  · intro h
    simp [compute_ev, h]
    norm_num
  · intro h
    simp only [compute_ev] at h ⊢
    rw [if_pos]
    simp only [decide_eq_false_iff_not, not_le]
    exact h

namespace HedgeEngine

lemma npStarts_length (seed bound : ℕ) : ∀ k, (npStarts seed bound k).length = k
  | 0 => rfl
  | k + 1 => by simp [npStarts, npStarts_length _ bound k]

lemma foldl_min_le_init (xs : List ℚ) : ∀ a : ℚ, xs.foldl min a ≤ a := by
  induction xs with
  | nil => simp
  | cons y ys ih => exact fun a => le_trans (ih (min a y)) (min_le_left a y)

lemma foldl_min_le_mem (xs : List ℚ) : ∀ a : ℚ, ∀ x ∈ xs, xs.foldl min a ≤ x := by
  induction xs with
  | nil => simp
  | cons y ys ih =>
    intro a x hx
    rcases List.mem_cons.mp hx with rfl | hx
    · exact le_trans (foldl_min_le_init ys (min a x)) (min_le_right a x)
    · exact ih (min a y) x hx

lemma listMin_le (l : List ℚ) : ∀ x ∈ l, listMin l ≤ x := by
  cases l with
  | nil => simp
  | cons y ys =>
    intro x hx
    rcases List.mem_cons.mp hx with rfl | hx
    · exact foldl_min_le_init ys x
    · exact foldl_min_le_mem ys y x hx

lemma foldl_max_ge_init (xs : List ℚ) : ∀ a : ℚ, a ≤ xs.foldl max a := by
  induction xs with
  | nil => simp
  | cons y ys ih => exact fun a => le_trans (le_max_left a y) (ih (max a y))

lemma foldl_max_ge_mem (xs : List ℚ) : ∀ a : ℚ, ∀ x ∈ xs, x ≤ xs.foldl max a := by
  induction xs with
  | nil => simp
  | cons y ys ih =>
    intro a x hx
    rcases List.mem_cons.mp hx with rfl | hx
    · exact le_trans (le_max_right a x) (foldl_max_ge_init ys (max a x))
    · exact ih (max a y) x hx

lemma le_listMax (l : List ℚ) : ∀ x ∈ l, x ≤ listMax l := by
  cases l with
  | nil => simp
  | cons y ys =>
    intro x hx
    rcases List.mem_cons.mp hx with rfl | hx
    · exact foldl_max_ge_init ys x
    · exact foldl_max_ge_mem ys y x hx

lemma pIdx_facts {l : List ℚ} (hn : 1 ≤ l.length) {q : ℚ} (h0 : 0 ≤ q)
    (h100 : q ≤ 100) :
    pIdx l q < l.length ∧ (pIdx l q : ℚ) ≤ q * ((l.length : ℚ) - 1) / 100 ∧
      q * ((l.length : ℚ) - 1) / 100 - (pIdx l q : ℚ) < 1 := by
  set pos := q * ((l.length : ℚ) - 1) / 100 with hposdef
  have hn1 : (1 : ℚ) ≤ (l.length : ℚ) := by exact_mod_cast hn
  have hpos0 : 0 ≤ pos := by
    rw [hposdef]
    apply div_nonneg _ (by norm_num)
    exact mul_nonneg h0 (by linarith)
  have hposn : pos ≤ (l.length : ℚ) - 1 := by
    rw [hposdef]
    rw [div_le_iff (by norm_num : (0:ℚ) < 100)]
    have := mul_le_mul_of_nonneg_right h100 (by linarith : (0:ℚ) ≤ (l.length : ℚ) - 1)
    linarith
  have hfl0 : 0 ≤ ⌊pos⌋ := Int.floor_nonneg.mpr hpos0
  have hcast : ((pIdx l q : ℕ) : ℚ) = (⌊pos⌋ : ℚ) := by
    rw [pIdx, ← hposdef]
    rw [← Int.toNat_of_nonneg hfl0]
    push_cast
    rw [Int.toNat_of_nonneg hfl0]
  refine ⟨?_, ?_, ?_⟩
  · have h1 : (⌊pos⌋ : ℚ) ≤ (l.length : ℚ) - 1 := le_trans (Int.floor_le pos) hposn
    have h2 : (pIdx l q : ℚ) ≤ (l.length : ℚ) - 1 := by rw [hcast]; exact h1
    have h3 : (pIdx l q : ℚ) < (l.length : ℚ) := by linarith
    exact_mod_cast h3
  · rw [hcast]; exact Int.floor_le pos
  · rw [hcast]
    have := Int.lt_floor_add_one pos
    linarith

lemma pIdx_mono {l : List ℚ} (hn : 1 ≤ l.length) {q₁ q₂ : ℚ} (h : q₁ ≤ q₂) :
    pIdx l q₁ ≤ pIdx l q₂ := by
  have hn1 : (1 : ℚ) ≤ (l.length : ℚ) := by exact_mod_cast hn
  have hposle : q₁ * ((l.length : ℚ) - 1) / 100 ≤ q₂ * ((l.length : ℚ) - 1) / 100 := by
    apply div_le_div_of_nonneg_right ?_ (by norm_num)
    · exact mul_le_mul_of_nonneg_right h (by linarith)
  exact Int.toNat_le_toNat (Int.floor_le_floor hposle)

lemma sorted_getD_le {l : List ℚ} (hs : l.Sorted (· ≤ ·)) {i j : ℕ}
    (hij : i ≤ j) (hj : j < l.length) (d₁ d₂ : ℚ) :
    l.getD i d₁ ≤ l.getD j d₂ := by
  have hi : i < l.length := lt_of_le_of_lt hij hj
  rw [List.getD_eq_getElem l d₁ hi, List.getD_eq_getElem l d₂ hj]
  have h := hs.rel_get_of_le (a := ⟨i, hi⟩) (b := ⟨j, hj⟩) hij
  simpa using h

lemma sorted_getD_succ_ge {l : List ℚ} (hs : l.Sorted (· ≤ ·)) {i : ℕ}
    (hi : i < l.length) (d : ℚ) :
    l.getD i d ≤ l.getD (i + 1) (l.getD i d) := by
  by_cases h : i + 1 < l.length
  · exact sorted_getD_le hs (Nat.le_succ i) h d _
  · rw [List.getD_eq_default l _ (Nat.not_lt.mp h)]

lemma npPercentile_lower {l : List ℚ} (hs : l.Sorted (· ≤ ·))
    (hn : 1 ≤ l.length) {q : ℚ} (h0 : 0 ≤ q) (h100 : q ≤ 100) :
    l.getD (pIdx l q) 0 ≤ npPercentile l q := by
  obtain ⟨hlt, hle, _⟩ := pIdx_facts hn h0 h100
  have hg0 : 0 ≤ q * ((l.length : ℚ) - 1) / 100 - (pIdx l q : ℚ) :=
    sub_nonneg.mpr hle
  have hlohi := sorted_getD_succ_ge hs hlt 0
  rw [npPercentile]
  nlinarith [mul_nonneg hg0 (sub_nonneg.mpr hlohi)]

lemma npPercentile_upper {l : List ℚ} (hs : l.Sorted (· ≤ ·))
    (hn : 1 ≤ l.length) {q : ℚ} (h0 : 0 ≤ q) (h100 : q ≤ 100) :
    npPercentile l q ≤ l.getD (pIdx l q + 1) (l.getD (pIdx l q) 0) := by
  obtain ⟨hlt, _, hg1⟩ := pIdx_facts hn h0 h100
  have hg1' : q * ((l.length : ℚ) - 1) / 100 - (pIdx l q : ℚ) ≤ 1 := le_of_lt hg1
  have hlohi := sorted_getD_succ_ge hs hlt 0
  rw [npPercentile]
  nlinarith [mul_le_mul_of_nonneg_right hg1' (sub_nonneg.mpr hlohi)]

lemma le_npPercentile_of_forall {l : List ℚ} (hs : l.Sorted (· ≤ ·))
    (hn : 1 ≤ l.length) {q : ℚ} (h0 : 0 ≤ q) (h100 : q ≤ 100) {m : ℚ}
    (hm : ∀ x ∈ l, m ≤ x) : m ≤ npPercentile l q := by
  obtain ⟨hlt, _, _⟩ := pIdx_facts hn h0 h100
  refine le_trans ?_ (npPercentile_lower hs hn h0 h100)
  rw [List.getD_eq_getElem l 0 hlt]
  exact hm _ (List.getElem_mem hlt)

lemma npPercentile_le_of_forall {l : List ℚ} (hs : l.Sorted (· ≤ ·))
    (hn : 1 ≤ l.length) {q : ℚ} (h0 : 0 ≤ q) (h100 : q ≤ 100) {M : ℚ}
    (hM : ∀ x ∈ l, x ≤ M) : npPercentile l q ≤ M := by
  obtain ⟨hlt, _, _⟩ := pIdx_facts hn h0 h100
  refine le_trans (npPercentile_upper hs hn h0 h100) ?_
  by_cases h : pIdx l q + 1 < l.length
  · rw [List.getD_eq_getElem l _ h]
    exact hM _ (List.getElem_mem h)
  · rw [List.getD_eq_default l _ (Nat.not_lt.mp h), List.getD_eq_getElem l 0 hlt]
    exact hM _ (List.getElem_mem hlt)

lemma npPercentile_mono {l : List ℚ} (hs : l.Sorted (· ≤ ·))
    (hn : 1 ≤ l.length) {q₁ q₂ : ℚ} (h0 : 0 ≤ q₁) (h12 : q₁ ≤ q₂)
    (h100 : q₂ ≤ 100) : npPercentile l q₁ ≤ npPercentile l q₂ := by
  have h0₂ : 0 ≤ q₂ := le_trans h0 h12
  have h100₁ : q₁ ≤ 100 := le_trans h12 h100
  obtain ⟨hlt₁, hle₁, _⟩ := pIdx_facts hn h0 h100₁
  obtain ⟨hlt₂, hle₂, hg₂⟩ := pIdx_facts hn h0₂ h100
  have hn1 : (1 : ℚ) ≤ (l.length : ℚ) := by exact_mod_cast hn
  have hposle : q₁ * ((l.length : ℚ) - 1) / 100 ≤ q₂ * ((l.length : ℚ) - 1) / 100 := by
    apply div_le_div_of_nonneg_right ?_ (by norm_num)
    · exact mul_le_mul_of_nonneg_right h12 (by linarith)
  rcases Nat.lt_or_ge (pIdx l q₁) (pIdx l q₂) with hidx | hidx
  · -- strictly smaller index: go through the order statistics between them
    have step₁ : npPercentile l q₁ ≤ l.getD (pIdx l q₁ + 1) (l.getD (pIdx l q₁) 0) :=
      npPercentile_upper hs hn h0 h100₁
    have step₂ : l.getD (pIdx l q₁ + 1) (l.getD (pIdx l q₁) 0) ≤ l.getD (pIdx l q₂) 0 :=
      sorted_getD_le hs hidx hlt₂ _ 0
    have step₃ : l.getD (pIdx l q₂) 0 ≤ npPercentile l q₂ :=
      npPercentile_lower hs hn h0₂ h100
    exact le_trans step₁ (le_trans step₂ step₃)
  · -- indices are equal (pIdx is monotone): interpolate within one segment
    have hidx' : pIdx l q₁ = pIdx l q₂ :=
      le_antisymm (pIdx_mono hn h12) hidx
    have hgap : (pIdx l q₁ : ℚ) ≤ q₁ * ((l.length : ℚ) - 1) / 100 := hle₁
    have hlohi := sorted_getD_succ_ge hs hlt₁ 0
    rw [npPercentile, npPercentile, ← hidx']
    have hgle : q₁ * ((l.length : ℚ) - 1) / 100 - (pIdx l q₁ : ℚ) ≤
        q₂ * ((l.length : ℚ) - 1) / 100 - (pIdx l q₁ : ℚ) := by linarith
    nlinarith [mul_le_mul_of_nonneg_right hgle (sub_nonneg.mpr hlohi)]

end HedgeEngine

/-- C7: `simulate_lef_decay` fails with `InvalidWindow` whenever `window < 1`,
fails with `InsufficientHistory` whenever the returns series is shorter than
the window, and succeeds for `window ≥ 1` with sufficient history (over valid
trial counts the guards are the only failure paths). -/
theorem simulate_lef_decay_error_cases (u : List ℚ) (lev : ℚ) (w : ℤ)
    (t s : ℕ) :
    (w < 1 → simulate_lef_decay u lev w t s = .error .invalidWindow) ∧
    (1 ≤ w → (u.length : ℤ) < w →
      simulate_lef_decay u lev w t s = .error .insufficientHistory) ∧
    (1 ≤ w → w ≤ (u.length : ℤ) →
      (simulate_lef_decay u lev w t s).isOk = true) := by
  refine ⟨?_, ?_, ?_⟩
  · intro h
    rw [simulate_lef_decay, if_pos h]
  · intro h1 h2
    rw [simulate_lef_decay, if_neg (not_lt.mpr h1), if_pos h2]
  · intro h1 h2
    rw [simulate_lef_decay, if_neg (not_lt.mpr h1), if_neg (not_lt.mpr h2)]
    rfl

/-- C4: calling the decay simulator twice with identical arguments (same
returns, leverage, window, trials and seed) produces identical statistics,
field by field — the generator is a pure function of the seed, so the result
is a function of the argument tuple alone. -/
theorem simulate_lef_decay_deterministic (u : List ℚ) (lev : ℚ) (w : ℤ)
    (t s : ℕ) (st₁ st₂ : DecayStats)
    (h₁ : simulate_lef_decay u lev w t s = .ok st₁)
    (h₂ : simulate_lef_decay u lev w t s = .ok st₂) :
    st₁.mean = st₂.mean ∧ st₁.median = st₂.median ∧ st₁.p10 = st₂.p10 ∧
      st₁.p25 = st₂.p25 ∧ st₁.p75 = st₂.p75 ∧ st₁.p90 = st₂.p90 ∧
      st₁.worst = st₂.worst ∧ st₁.best = st₂.best := by
  rw [h₁] at h₂
  obtain rfl : st₁ = st₂ := by
    simpa using h₂
  exact ⟨rfl, rfl, rfl, rfl, rfl, rfl, rfl, rfl⟩

/-- Concrete run used by the witnesses: two zero returns, leverage 2,
window 1, one trial, seed 0 produce the all-zero statistics. -/
lemma simulate_zero_run : simulate_lef_decay [0, 0] 2 1 1 0 = .ok zeroStats := by
  rw [simulate_lef_decay, if_neg (by norm_num), if_neg (by norm_num)]
  norm_num [npStarts, trialReturn, npPercentile, pIdx, listMean, listMin,
    listMax, List.insertionSort, List.orderedInsert, zeroStats]

/-- C4 witness: the determinism theorem applied to the concrete zero-returns
run. -/
theorem simulate_lef_decay_deterministic_witness :
    zeroStats.mean = zeroStats.mean ∧ zeroStats.median = zeroStats.median ∧
      zeroStats.p10 = zeroStats.p10 ∧ zeroStats.p25 = zeroStats.p25 ∧
      zeroStats.p75 = zeroStats.p75 ∧ zeroStats.p90 = zeroStats.p90 ∧
      zeroStats.worst = zeroStats.worst ∧ zeroStats.best = zeroStats.best :=
  simulate_lef_decay_deterministic [0, 0] 2 1 1 0 zeroStats zeroStats
    simulate_zero_run simulate_zero_run

/-- C8: every `DecayStats` the simulator produces (with at least one trial)
satisfies the percentile ordering
`worst ≤ p10 ≤ p25 ≤ median ≤ p75 ≤ p90 ≤ best`. -/
theorem simulate_stats_percentile_order (u : List ℚ) (lev : ℚ) (w : ℤ)
    (t s : ℕ) (st : DecayStats) (ht : 1 ≤ t)
    (h : simulate_lef_decay u lev w t s = .ok st) :
    st.worst ≤ st.p10 ∧ st.p10 ≤ st.p25 ∧ st.p25 ≤ st.median ∧
      st.median ≤ st.p75 ∧ st.p75 ≤ st.p90 ∧ st.p90 ≤ st.best := by
  rw [simulate_lef_decay] at h
  split at h
  · exact absurd h (by simp)
  split at h
  · exact absurd h (by simp)
  · rw [Except.ok.injEq] at h
    subst h
    set results := (npStarts s (u.length - w.toNat + 1) t).map
      (trialReturn u lev w.toNat) with hres
    set sorted := results.insertionSort (· ≤ ·) with hsorted
    have hsort : sorted.Sorted (· ≤ ·) := List.sorted_insertionSort _ results
    have hlen : sorted.length = t := by
      rw [hsorted, List.length_insertionSort, hres, List.length_map,
        npStarts_length]
    have hn : 1 ≤ sorted.length := by rw [hlen]; exact ht
    have hmemiff : ∀ x, x ∈ sorted ↔ x ∈ results := fun x =>
      List.mem_insertionSort _
    refine ⟨?_, ?_, ?_, ?_, ?_, ?_⟩
    · exact le_npPercentile_of_forall hsort hn (by norm_num) (by norm_num)
        (fun x hx => listMin_le results x ((hmemiff x).mp hx))
    · exact npPercentile_mono hsort hn (by norm_num) (by norm_num) (by norm_num)
    · exact npPercentile_mono hsort hn (by norm_num) (by norm_num) (by norm_num)
    · exact npPercentile_mono hsort hn (by norm_num) (by norm_num) (by norm_num)
    · exact npPercentile_mono hsort hn (by norm_num) (by norm_num) (by norm_num)
    · exact npPercentile_le_of_forall hsort hn (by norm_num) (by norm_num)
        (fun x hx => le_listMax results x ((hmemiff x).mp hx))

/-- C8 witness: the percentile-ordering theorem applied to the concrete
zero-returns run. -/
theorem simulate_stats_percentile_order_witness :
    zeroStats.worst ≤ zeroStats.p10 ∧ zeroStats.p10 ≤ zeroStats.p25 ∧
      zeroStats.p25 ≤ zeroStats.median ∧ zeroStats.median ≤ zeroStats.p75 ∧
      zeroStats.p75 ≤ zeroStats.p90 ∧ zeroStats.p90 ≤ zeroStats.best :=
  simulate_stats_percentile_order [0, 0] 2 1 1 0 zeroStats (by norm_num)
    simulate_zero_run

namespace HedgeEngine

lemma slice_capacity_nonneg (adv pct sm mpd price : ℚ) :
    0 ≤ _slice_capacity_from_adv adv pct sm mpd price := by
  rw [_slice_capacity_from_adv]
  split
  · exact le_refl 0
  · exact le_max_left 0 _

lemma twapLoop_filled (side : String) (qty slices : ℤ)
    (mp adv pct sm bps : ℚ) (hq : 0 < qty) (hs : 0 < slices) :
    ∀ (fuel i : ℕ) (remaining : ℤ) (rng : ℕ), 0 < remaining →
      ∀ f ∈ (twapLoop side qty slices mp adv pct sm bps i fuel remaining rng).1,
        0 ≤ f.filled ∧
          f.filled ≤ (if 0 < _slice_capacity_from_adv adv pct sm 390 mp
            then min ⌈(qty : ℚ) / (slices : ℚ)⌉ (_slice_capacity_from_adv adv pct sm 390 mp)
            else ⌈(qty : ℚ) / (slices : ℚ)⌉) := by
  intro fuel
  induction fuel with
  | zero =>
    intro i remaining rng hrem f hf
    simp [twapLoop] at hf
  | succ fuel ih =>
    intro i remaining rng hrem f hf
    have hint : 0 < ⌈(qty : ℚ) / (slices : ℚ)⌉ := by
      rw [Int.ceil_pos]
      exact div_pos (by exact_mod_cast hq) (by exact_mod_cast hs)
    have hcap := slice_capacity_nonneg adv pct sm 390 mp
    simp only [twapLoop] at hf
    set cap := _slice_capacity_from_adv adv pct sm 390 mp with hcapdef
    set intended := ⌈(qty : ℚ) / (slices : ℚ)⌉ with hintdef
    set a0 := if 0 < cap then min intended cap else intended with ha0def
    have ha0 : 0 < a0 := by
      rw [ha0def]
      split
      · exact lt_min hint (by assumption)
      · exact hint
    rw [if_neg (by omega : ¬(a0 ≤ 0 ∧ 0 < remaining))] at hf
    rw [if_neg (by omega : ¬(min a0 remaining ≤ 0))] at hf
    split at hf
    · -- remaining exhausted by this slice: singleton fill record
      simp only [List.mem_singleton] at hf
      subst hf
      constructor <;> dsimp only <;> omega
    · -- slice filled, loop continues on the rest
      simp only [List.mem_cons] at hf
      rcases hf with rfl | hf
      · constructor <;> dsimp only <;> omega
      · exact ih (i + 1) _ _ (by omega) f hf

lemma twapLoop_remaining (side : String) (qty slices : ℤ)
    (mp adv pct sm bps : ℚ) :
    ∀ (fuel i : ℕ) (remaining : ℤ) (rng : ℕ), 0 ≤ remaining →
      0 ≤ (twapLoop side qty slices mp adv pct sm bps i fuel remaining rng).2.1 ∧
      (twapLoop side qty slices mp adv pct sm bps i fuel remaining rng).2.1 ≤ remaining := by
  intro fuel
  induction fuel with
  | zero =>
    intro i remaining rng hrem
    simp [twapLoop, hrem]
  | succ fuel ih =>
    intro i remaining rng hrem
    simp only [twapLoop]
    split_ifs with h1 h2 h3 h4 h5 h6 <;>
      refine ⟨?_, ?_⟩ <;>
      try dsimp only
    all_goals
      first
        | omega
        | exact (ih (i + 1) _ _ (by omega)).1
        | exact le_trans (ih (i + 1) _ _ (by omega)).2 (by omega)

lemma twap_fill_total_bounds (order : Order) (mp adv pct : ℚ)
    (dur slices : ℤ) (bps : ℚ) (rng : ℕ) (h : 0 ≤ order.qty) :
    0 ≤ (_simulate_twap_fill order mp adv pct dur slices bps rng).2.1 ∧
    (_simulate_twap_fill order mp adv pct dur slices bps rng).2.1 ≤ order.qty := by
  rw [_simulate_twap_fill]
  split
  · simp only []
    omega
  · have hb := twapLoop_remaining order.side order.qty slices mp adv pct
      ((dur : ℚ) / (slices : ℚ)) bps slices.toNat 0 order.qty rng h
    simp only []
    omega

lemma market_filled_cases (order : Order) (mp bps : ℚ) (rng : ℕ) :
    (_execute_order_market order mp bps rng).1.filled = 0 ∨
    ((_execute_order_market order mp bps rng).1.filled = order.qty ∧ 0 < order.qty) := by
  rw [_execute_order_market]
  split
  · exact Or.inl rfl
  · exact Or.inr ⟨rfl, by omega⟩

lemma limit_filled_cases (order : Order) (mp bps : ℚ) (rng : ℕ) :
    (_execute_order_limit order mp bps rng).1.filled = 0 ∨
    ((_execute_order_limit order mp bps rng).1.filled = order.qty ∧ 0 < order.qty) := by
  simp only [_execute_order_limit]
  split
  · exact Or.inl rfl
  · split_ifs with h1 h2 h3 h4 h5 <;>
      first
        | exact Or.inl rfl
        | exact Or.inr ⟨rfl, by omega⟩

lemma market_filled_bounds (order : Order) (mp bps : ℚ) (rng : ℕ)
    (h : 0 ≤ order.qty) :
    0 ≤ (_execute_order_market order mp bps rng).1.filled ∧
    (_execute_order_market order mp bps rng).1.filled ≤ order.qty := by
  rcases market_filled_cases order mp bps rng with h0 | ⟨he, hp⟩
  · rw [h0]
    omega
  · rw [he]
    omega

lemma limit_filled_bounds (order : Order) (mp bps : ℚ) (rng : ℕ)
    (h : 0 ≤ order.qty) :
    0 ≤ (_execute_order_limit order mp bps rng).1.filled ∧
    (_execute_order_limit order mp bps rng).1.filled ≤ order.qty := by
  rcases limit_filled_cases order mp bps rng with h0 | ⟨he, hp⟩
  · rw [h0]
    omega
  · rw [he]
    omega

lemma processOrder_bounds (snapshot : List (String × MarketInfo))
    (sp bps : ℚ) (order : Order) (rng : ℕ) (h : 0 ≤ order.qty) :
    (processOrder snapshot sp bps order rng).1.requested_qty = order.qty ∧
    0 ≤ (processOrder snapshot sp bps order rng).1.filled_qty ∧
    (processOrder snapshot sp bps order rng).1.filled_qty ≤ order.qty := by
  simp only [processOrder]
  split
  · exact ⟨rfl, (twap_fill_total_bounds order _ _ _ _ _ bps rng h).1,
      (twap_fill_total_bounds order _ _ _ _ _ bps rng h).2⟩
  · split_ifs with h1 h2 <;>
      first
        | exact ⟨rfl, (market_filled_bounds order _ bps rng h).1,
            (market_filled_bounds order _ bps rng h).2⟩
        | exact ⟨rfl, (limit_filled_bounds order _ bps rng h).1,
            (limit_filled_bounds order _ bps rng h).2⟩

lemma execFold_invariant (snapshot : List (String × MarketInfo)) (sp bps : ℚ) :
    ∀ (orders : List Order) (acc : List OrderResult × Metrics × ℕ),
      (∀ o ∈ orders, 0 ≤ o.qty) →
      (∀ r ∈ acc.1, 0 ≤ r.filled_qty ∧ r.filled_qty ≤ r.requested_qty) →
      acc.2.1.total_filled = (acc.1.map OrderResult.filled_qty).sum →
      acc.2.1.total_filled ≤ acc.2.1.total_requested →
      (∀ r ∈ (orders.foldl (execStep snapshot sp bps) acc).1,
        0 ≤ r.filled_qty ∧ r.filled_qty ≤ r.requested_qty) ∧
      (orders.foldl (execStep snapshot sp bps) acc).2.1.total_filled =
        ((orders.foldl (execStep snapshot sp bps) acc).1.map OrderResult.filled_qty).sum ∧
      (orders.foldl (execStep snapshot sp bps) acc).2.1.total_filled ≤
        (orders.foldl (execStep snapshot sp bps) acc).2.1.total_requested := by
  intro orders
  induction orders with
  | nil => exact fun acc _ h1 h2 h3 => ⟨h1, h2, h3⟩
  | cons o os ih =>
    intro acc hq h1 h2 h3
    have hqo : 0 ≤ o.qty := hq o (List.mem_cons_self o os)
    have hb := processOrder_bounds snapshot sp bps o acc.2.2 hqo
    simp only [List.foldl_cons]
    refine ih (execStep snapshot sp bps acc o) (fun x hx => hq x (List.mem_cons_of_mem o hx))
      ?_ ?_ ?_
    · intro r hr
      rw [execStep] at hr
      simp only [List.mem_append, List.mem_singleton] at hr
      rcases hr with hr | rfl
      · exact h1 r hr
      · exact ⟨hb.2.1, le_trans hb.2.2 (le_of_eq hb.1.symm)⟩
    · rw [execStep]
      simp only [List.map_append, List.map_cons, List.map_nil, List.sum_append,
        List.sum_cons, List.sum_nil, add_zero]
      omega
    · rw [execStep]
      simp only []
      omega

end HedgeEngine

/-- C1 counterexample: a TWAP order of quantity 100 in one slice against
ADV = 100 USD at price 100 has slice capacity 0, yet the slice fills 100
units — far more than the 1 unit the claim's zero-cap exception allows. -/
theorem twap_zero_cap_counterexample :
    _slice_capacity_from_adv 100 (5/100) ((30 : ℚ) / (1 : ℚ)) 390 100 = 0 ∧
    ¬ (∀ f ∈ (_simulate_twap_fill c1Order 100 100 (5/100) 30 1 5 0).1,
        f.filled ≤ 1) := by
  constructor
  · norm_num [_slice_capacity_from_adv]
  · intro hall
    have hmem : (⟨1, 100, 100, some (_mock_fill_price 100 "BUY" 5 0).1, "filled"⟩ :
        SliceFill) ∈ (_simulate_twap_fill c1Order 100 100 (5/100) 30 1 5 0).1 := by
      norm_num [_simulate_twap_fill, twapLoop, _slice_capacity_from_adv, c1Order]
    have := hall _ hmem
    norm_num at this

/-- C1 (amended): for a TWAP order with positive quantity, every slice's
filled quantity is nonnegative and capped by the participation-rate capacity
whenever that capacity is positive; when the computed capacity is zero the
code allows the full even-split intended quantity `ceil(qty/slices)` per
slice (the `min(remaining, 1)` liquidity-floor branch is unreachable for
positive quantity), not just 1 unit. -/
theorem twap_slice_fill_capacity (order : Order)
    (market_price adv_usd percent : ℚ) (duration slices : ℤ) (bps : ℚ)
    (rng : ℕ) (hq : 0 < order.qty) :
    ∀ f ∈ (_simulate_twap_fill order market_price adv_usd percent duration
        slices bps rng).1,
      0 ≤ f.filled ∧
      (0 < _slice_capacity_from_adv adv_usd percent
          ((duration : ℚ) / (slices : ℚ)) 390 market_price →
        f.filled ≤ _slice_capacity_from_adv adv_usd percent
          ((duration : ℚ) / (slices : ℚ)) 390 market_price) ∧
      (_slice_capacity_from_adv adv_usd percent
          ((duration : ℚ) / (slices : ℚ)) 390 market_price = 0 →
        f.filled ≤ ⌈(order.qty : ℚ) / (slices : ℚ)⌉) := by
  intro f hf
  simp only [_simulate_twap_fill] at hf
  split at hf
  · simp at hf
  · rename_i hguard
    push_neg at hguard
    have hs : 0 < slices := hguard.2
    have hb := twapLoop_filled order.side order.qty slices market_price adv_usd
      percent ((duration : ℚ) / (slices : ℚ)) bps hq hs slices.toNat 0 order.qty
      rng hq f hf
    refine ⟨hb.1, ?_, ?_⟩
    · intro hcap
      have h2 := hb.2
      rw [if_pos hcap] at h2
      exact le_trans h2 (min_le_right _ _)
    · intro hcap
      have h2 := hb.2
      rw [hcap] at h2
      simpa using h2

/-- C1 witness: the slice-capacity bound applied to the concrete one-slice
TWAP run of the C1 scenario, at its single (fully filled) slice record. -/
theorem twap_slice_fill_capacity_witness :
    0 ≤ (⟨1, 100, 100, some (_mock_fill_price 100 "BUY" 5 0).1, "filled"⟩ :
      SliceFill).filled ∧
    (0 < _slice_capacity_from_adv 100 (5/100) ((30 : ℚ) / ((1 : ℤ) : ℚ)) 390 100 →
      (⟨1, 100, 100, some (_mock_fill_price 100 "BUY" 5 0).1, "filled"⟩ :
        SliceFill).filled ≤
        _slice_capacity_from_adv 100 (5/100) ((30 : ℚ) / ((1 : ℤ) : ℚ)) 390 100) ∧
    (_slice_capacity_from_adv 100 (5/100) ((30 : ℚ) / ((1 : ℤ) : ℚ)) 390 100 = 0 →
      (⟨1, 100, 100, some (_mock_fill_price 100 "BUY" 5 0).1, "filled"⟩ :
        SliceFill).filled ≤ ⌈(c1Order.qty : ℚ) / ((1 : ℤ) : ℚ)⌉) :=
  twap_slice_fill_capacity c1Order 100 100 (5/100) 30 1 5 0 (by norm_num [c1Order])
    ⟨1, 100, 100, some (_mock_fill_price 100 "BUY" 5 0).1, "filled"⟩
    (by norm_num [_simulate_twap_fill, twapLoop, _slice_capacity_from_adv, c1Order])

/-- C6: a LIMIT order with a limit price and positive quantity fills fully
(at a slipped price anchored to the limit) exactly when it is marketable —
BUY iff `limit ≥ market_price`, SELL iff `limit ≤ market_price` — and is
otherwise `no_fill` with zero quantity and no price; a missing limit or
non-positive quantity gives `invalid_order` (the function is total, no
exception); and the filled quantity is always 0 or the full quantity (no
partial limit fills). -/
theorem limit_order_semantics (order : Order) (market_price bps : ℚ) (rng : ℕ) :
    ((order.limit = none ∨ order.qty ≤ 0) →
      (_execute_order_limit order market_price bps rng).1.status = "invalid_order" ∧
      (_execute_order_limit order market_price bps rng).1.filled = 0) ∧
    (∀ L : ℚ, order.limit = some L → 0 < order.qty →
      ((order.side = "BUY" →
        ((market_price ≤ L →
          (_execute_order_limit order market_price bps rng).1.status = "filled" ∧
          (_execute_order_limit order market_price bps rng).1.filled = order.qty ∧
          (_execute_order_limit order market_price bps rng).1.avg_fill_price =
            some (_mock_fill_price L "BUY" bps rng).1) ∧
         (L < market_price →
          (_execute_order_limit order market_price bps rng).1.status = "no_fill" ∧
          (_execute_order_limit order market_price bps rng).1.filled = 0 ∧
          (_execute_order_limit order market_price bps rng).1.avg_fill_price = none))) ∧
       (order.side = "SELL" →
        ((L ≤ market_price →
          (_execute_order_limit order market_price bps rng).1.status = "filled" ∧
          (_execute_order_limit order market_price bps rng).1.filled = order.qty ∧
          (_execute_order_limit order market_price bps rng).1.avg_fill_price =
            some (_mock_fill_price L "SELL" bps rng).1) ∧
         (market_price < L →
          (_execute_order_limit order market_price bps rng).1.status = "no_fill" ∧
          (_execute_order_limit order market_price bps rng).1.filled = 0 ∧
          (_execute_order_limit order market_price bps rng).1.avg_fill_price = none))))) ∧
    ((_execute_order_limit order market_price bps rng).1.filled = 0 ∨
     (_execute_order_limit order market_price bps rng).1.filled = order.qty) := by
  refine ⟨?_, ?_, ?_⟩
  · intro hinv
    rcases hinv with hnone | hqty
    · simp [_execute_order_limit, hnone]
    · simp only [_execute_order_limit]
      cases order.limit with
      | none => simp
      | some L => simp [hqty]
  · intro L hL hq
    constructor
    · intro hside
      simp only [_execute_order_limit, hL, hside, if_neg (not_le.mpr hq)]
      have hup : strUpper "BUY" = "BUY" := by decide
      rw [hup]
      constructor
      · intro hmk
        rw [if_pos rfl, if_pos (by simpa using hmk)]
        exact ⟨rfl, rfl, rfl⟩
      · intro hmk
        rw [if_pos rfl, if_neg (by simpa using not_le.mpr hmk)]
        exact ⟨rfl, rfl, rfl⟩
    · intro hside
      simp only [_execute_order_limit, hL, hside, if_neg (not_le.mpr hq)]
      have hup : strUpper "SELL" = "SELL" := by decide
      rw [hup]
      constructor
      · intro hmk
        rw [if_neg (by decide : ¬("SELL" : String) = "BUY"),
          if_pos (by simpa using hmk)]
        exact ⟨rfl, rfl, rfl⟩
      · intro hmk
        rw [if_neg (by decide : ¬("SELL" : String) = "BUY"),
          if_neg (by simpa using not_le.mpr hmk)]
        exact ⟨rfl, rfl, rfl⟩
  · rcases limit_filled_cases order market_price bps rng with h0 | ⟨he, _⟩
    · exact Or.inl h0
    · exact Or.inr he

/-- C10: in sandbox mode, when every order of the plan has nonnegative
quantity, every per-order result satisfies
`0 ≤ filled_qty ≤ requested_qty`, and the plan-level `total_filled` equals
the sum of the per-order filled quantities and never exceeds
`total_requested`. -/
theorem execute_order_conserves_quantity (plan : ExecutionPlan)
    (snapshot : List (String × MarketInfo)) (seed : ℕ) (report : FillReport)
    (h : execute_order plan "sandbox" snapshot seed = .ok report)
    (hq : ∀ o ∈ plan.orders, 0 ≤ o.qty) :
    (∀ r ∈ report.fills, 0 ≤ r.filled_qty ∧ r.filled_qty ≤ r.requested_qty) ∧
    report.metrics.total_filled = (report.fills.map OrderResult.filled_qty).sum ∧
    report.metrics.total_filled ≤ report.metrics.total_requested := by
  rw [execute_order, if_neg (by simp)] at h
  rw [Except.ok.injEq] at h
  subst h
  have hinv := execFold_invariant snapshot
    (_parse_sor_policy plan.sor_policy).2 plan.max_slippage_bps plan.orders
    ([], ⟨0, 0, 0⟩, seed) hq (by simp) (by simp) (by simp)
  exact ⟨hinv.1, hinv.2.1, hinv.2.2⟩

/-- C10 witness: the conservation theorem applied to the empty sandbox plan. -/
theorem execute_order_conserves_quantity_witness :
    (∀ r ∈ (FillReport.mk "ok" [] ⟨0, 0, 0⟩).fills,
      0 ≤ r.filled_qty ∧ r.filled_qty ≤ r.requested_qty) ∧
    (FillReport.mk "ok" [] ⟨0, 0, 0⟩).metrics.total_filled =
      ((FillReport.mk "ok" [] ⟨0, 0, 0⟩).fills.map OrderResult.filled_qty).sum ∧
    (FillReport.mk "ok" [] ⟨0, 0, 0⟩).metrics.total_filled ≤
      (FillReport.mk "ok" [] ⟨0, 0, 0⟩).metrics.total_requested :=
  execute_order_conserves_quantity ⟨[], .nullP, 5⟩ [] 0 ⟨"ok", [], ⟨0, 0, 0⟩⟩
    rfl (by simp)

namespace HedgeEngine

lemma key_test_invariant (k k' : String) (v : JVal) (p : String × JVal) :
    ((if p.1 == k then ((k, v) : String × JVal) else p).1 == k') = (p.1 == k') := by
  by_cases hp : (p.1 == k) = true
  · rw [if_pos hp]
    have h1 : p.1 = k := eq_of_beq hp
    rw [h1]
  · rw [if_neg hp]

lemma comp_key_test (k k' : String) (v : JVal) :
    ((fun p : String × JVal => p.1 == k') ∘
      (fun p => if p.1 == k then (k, v) else p)) =
      fun p : String × JVal => p.1 == k' :=
  funext fun p => key_test_invariant k k' v p

lemma comp_not_key (k k' : String) (v : JVal) :
    ((fun p : String × JVal => !(p.1 == k')) ∘
      (fun p => if p.1 == k then (k, v) else p)) =
      fun p : String × JVal => !(p.1 == k') :=
  funext fun p => congrArg (fun b => !b) (key_test_invariant k k' v p)

lemma getJ_setJ_same (k : String) (v : JVal) (r : List (String × JVal)) :
    getJ (setJ r k v) k = some v := by
  rw [setJ]
  split
  · rename_i hany
    rw [getJ, List.find?_map, comp_key_test]
    cases hfind : r.find? (fun p => p.1 == k) with
    | none =>
      obtain ⟨e, he, hpe⟩ := List.any_eq_true.mp hany
      exact absurd hpe (by simpa using List.find?_eq_none.mp hfind e he)
    | some e =>
      have hpe0 := List.find?_some hfind
      have hpe : (e.1 == k) = true := hpe0
      simp only [Option.map_some']
      have : (if e.1 == k then ((k, v) : String × JVal) else e) = (k, v) :=
        if_pos hpe
      rw [this]
  · rename_i hany
    rw [getJ, List.find?_append]
    have hnone : r.find? (fun p => p.1 == k) = none :=
      List.find?_eq_none.mpr fun x hx hpx =>
        hany (List.any_eq_true.mpr ⟨x, hx, hpx⟩)
    rw [hnone]
    simp

lemma getJ_setJ_ne (k k' : String) (v : JVal) (h : k' ≠ k)
    (r : List (String × JVal)) : getJ (setJ r k v) k' = getJ r k' := by
  rw [setJ]
  split
  · rw [getJ, List.find?_map, comp_key_test, getJ]
    cases hfind : r.find? (fun p => p.1 == k') with
    | none => rfl
    | some e =>
      have hpe0 := List.find?_some hfind
      have hpe : (e.1 == k') = true := hpe0
      have hek : ¬((e.1 == k) = true) := by
        rw [eq_of_beq hpe]
        simp [beq_eq_false_iff_ne.mpr h]
      simp only [Option.map_some']
      rw [if_neg hek]
  · rw [getJ, getJ, List.find?_append]
    have hsingle : (([(k, v)] : List (String × JVal)).find?
        (fun p => p.1 == k')) = none := by
      rw [List.find?_cons_of_neg]
      · rfl
      · simp [beq_eq_false_iff_ne.mpr (Ne.symm h)]
    rw [hsingle, Option.or_none]

lemma popJ_setJ_same (k : String) (v : JVal) (r : List (String × JVal)) :
    popJ (setJ r k v) k = popJ r k := by
  rw [setJ]
  split
  · rw [popJ, List.filter_map, comp_not_key, popJ]
    refine (List.map_congr_left ?_).trans (List.map_id _)
    intro p hp
    have hpk : ¬((p.1 == k) = true) := by
      have := List.of_mem_filter hp
      simp only [Bool.not_eq_true'] at this
      simp [this]
    exact if_neg hpk
  · rw [popJ, popJ, List.filter_append]
    have : (([(k, v)] : List (String × JVal)).filter
        (fun p => !(p.1 == k))) = [] := by
      rw [List.filter_cons_of_neg]
      · rfl
      · simp
    rw [this, List.append_nil]

lemma popJ_popJ_setJ (k k₁ : String) (v : JVal) (h : k₁ ≠ k)
    (r : List (String × JVal)) :
    popJ (popJ (setJ r k v) k₁) k = popJ (popJ r k₁) k := by
  rw [setJ]
  split
  · rw [popJ, popJ, popJ, popJ, List.filter_map, comp_not_key,
      List.filter_map, comp_not_key]
    refine (List.map_congr_left ?_).trans (List.map_id _)
    intro p hp
    have hpk : ¬((p.1 == k) = true) := by
      have := List.of_mem_filter hp
      simp only [Bool.not_eq_true'] at this
      simp [this]
    exact if_neg hpk
  · rw [popJ, popJ, popJ, popJ, List.filter_append, List.filter_append]
    have h1 : (([(k, v)] : List (String × JVal)).filter
        (fun p => !(p.1 == k₁))) = [(k, v)] := by
      rw [List.filter_cons_of_pos]
      · rfl
      · simp [beq_eq_false_iff_ne.mpr (fun he => h (he.symm))]
    have h2 : (([(k, v)] : List (String × JVal)).filter
        (fun p => !(p.1 == k))) = [] := by
      rw [List.filter_cons_of_neg]
      · rfl
      · simp
    rw [h1, h2, List.append_nil]

end HedgeEngine

namespace HedgeEngine

lemma make_eq (hashFn : List (String × JVal) → String) (gen_id gen_ts : String)
    (ensure_ids : Bool) (decision : List (String × JVal)) :
    ∃ R, make_decision_record hashFn gen_id gen_ts ensure_ids decision =
      setJ R "audit_hash" (JVal.str (compute_audit_hash hashFn R)) :=
  ⟨_, rfl⟩

lemma verify_setJ_hash (hashFn : List (String × JVal) → String)
    (hne : ∀ r, hashFn r ≠ "") (R : List (String × JVal)) :
    verify_audit_hash hashFn
      (setJ R "audit_hash" (JVal.str (compute_audit_hash hashFn R))) = true := by
  have hget := getJ_setJ_same "audit_hash"
    (JVal.str (compute_audit_hash hashFn R)) R
  rw [verify_audit_hash, hget]
  dsimp only
  have hne' : compute_audit_hash hashFn R ≠ "" := by
    rw [compute_audit_hash]
    exact hne _
  rw [if_neg hne']
  rw [decide_eq_true_eq, compute_audit_hash, compute_audit_hash,
    popJ_setJ_same]

end HedgeEngine

/-- C5: sealing a record (`make_decision_record`) always yields a record that
verifies; and mutating any field other than `audit_hash`/`signature` to a
value whose stripped-record hash differs (any mutation, for a collision-free
SHA-256, which the hypothesis instantiates at the two records in question)
makes `verify_audit_hash` false without resealing. The audit hash is, by
construction, the hash of the record with `audit_hash` and `signature`
removed. -/
theorem audit_seal_verify_tamper (hashFn : List (String × JVal) → String)
    (gen_id gen_ts : String) (decision : List (String × JVal))
    (k : String) (v : JVal)
    (hne : ∀ r, hashFn r ≠ "")
    (hk1 : k ≠ "audit_hash") (hk2 : k ≠ "signature")
    (hcoll : hashFn (popJ (popJ (setJ (make_decision_record hashFn gen_id
        gen_ts true decision) k v) "audit_hash") "signature") ≠
      hashFn (popJ (popJ (make_decision_record hashFn gen_id gen_ts true
        decision) "audit_hash") "signature")) :
    verify_audit_hash hashFn
      (make_decision_record hashFn gen_id gen_ts true decision) = true ∧
    verify_audit_hash hashFn
      (setJ (make_decision_record hashFn gen_id gen_ts true decision) k v) =
      false := by
  obtain ⟨R, hR⟩ := make_eq hashFn gen_id gen_ts true decision
  rw [hR] at hcoll ⊢
  constructor
  · exact verify_setJ_hash hashFn hne R
  · have hget : getJ (setJ (setJ R "audit_hash"
        (JVal.str (compute_audit_hash hashFn R))) k v) "audit_hash" =
        some (JVal.str (compute_audit_hash hashFn R)) := by
      rw [getJ_setJ_ne k "audit_hash" v (Ne.symm hk1), getJ_setJ_same]
    rw [verify_audit_hash, hget]
    dsimp only
    have hne' : compute_audit_hash hashFn R ≠ "" := by
      rw [compute_audit_hash]
      exact hne _
    rw [if_neg hne']
    rw [popJ_setJ_same] at hcoll
    simp only [decide_eq_false_iff_not]
    intro heq
    rw [compute_audit_hash, compute_audit_hash] at heq
    exact hcoll heq.symm

/-- C5 witness: seal the empty record with the concrete stand-in hash
function, then tamper with a fresh field. -/
theorem audit_seal_verify_tamper_witness :
    verify_audit_hash c5Hash
      (make_decision_record c5Hash "id" "ts" true []) = true ∧
    verify_audit_hash c5Hash
      (setJ (make_decision_record c5Hash "id" "ts" true []) "extra"
        JVal.null) = false :=
  audit_seal_verify_tamper c5Hash "id" "ts" [] "extra" JVal.null
    (fun r => by simp only [c5Hash]; split <;> decide)
    (by decide) (by decide) (by decide)

/-- C9: for a record with a string `audit_hash`, `sign_decision` returns the
record with exactly the `{signed_by, signature_hash, signed_at}` block
attached under `signature`, where
`signature_hash = sha256(audit_hash + "|" + signer)`; every other field —
`audit_hash` included — is unchanged, so a record that verified still
verifies after signing; a record without `audit_hash` fails with
`MissingAuditHash`. -/
theorem sign_decision_frame (sigHash : String → String) (now : String)
    (decision : List (String × JVal)) (signer : String) :
    (getJ decision "audit_hash" = none →
      sign_decision sigHash now decision signer = .error .missingAuditHash) ∧
    (∀ h : String, getJ decision "audit_hash" = some (JVal.str h) →
      sign_decision sigHash now decision signer = .ok (setJ decision
        "signature" (signatureBlock signer (sigHash (h ++ "|" ++ signer)) now)) ∧
      getJ (setJ decision "signature"
        (signatureBlock signer (sigHash (h ++ "|" ++ signer)) now))
        "signature" =
        some (signatureBlock signer (sigHash (h ++ "|" ++ signer)) now) ∧
      (∀ k : String, k ≠ "signature" →
        getJ (setJ decision "signature"
          (signatureBlock signer (sigHash (h ++ "|" ++ signer)) now)) k =
        getJ decision k) ∧
      (∀ hashFn : List (String × JVal) → String,
        verify_audit_hash hashFn decision = true →
        verify_audit_hash hashFn (setJ decision "signature"
          (signatureBlock signer (sigHash (h ++ "|" ++ signer)) now)) =
          true)) := by
  constructor
  · intro hnone
    rw [sign_decision, hnone]
  · intro h hsome
    refine ⟨?_, ?_, ?_, ?_⟩
    · rw [sign_decision, hsome]
    · exact getJ_setJ_same "signature" _ decision
    · intro k hk
      exact getJ_setJ_ne "signature" k _ hk decision
    · intro hashFn hv
      rw [verify_audit_hash] at hv
      rw [verify_audit_hash,
        getJ_setJ_ne "signature" "audit_hash" _ (by decide) decision]
      rw [hsome] at hv ⊢
      dsimp only at hv ⊢
      have hsame : compute_audit_hash hashFn (setJ decision "signature"
          (signatureBlock signer (sigHash (h ++ "|" ++ signer)) now)) =
          compute_audit_hash hashFn decision := by
        rw [compute_audit_hash, compute_audit_hash,
          popJ_popJ_setJ "signature" "audit_hash" _ (by decide)]
      rw [hsame]
      exact hv
